import Mathlib

/-!
Verification of the SVG mail-merge generator (`generate.py`).

The script fills an SVG template with rows from a CSV file.  Its core is:

* `replace(root, replacements)` — finds every element with
  `class="template"` (document order), pulls one record per region from the
  row iterator, and for each record field sets the text of every
  `svg:tspan` / `svg:flowPara` descendant of the region whose `class`
  attribute equals the field name.  Returns `(count, go_again)` where
  `go_again` is `False` exactly when the iterator raised `StopIteration`.
* `generate_page_svg_trees(data_iterator, path)` — repeatedly deep-copies
  the parsed master tree, runs `replace` on the copy, yields the copy when
  `count > 0`, and stops when `go_again` is false.
* `filter_wedding_rsvp(reader)` — adapter: skips rows with an empty
  `Starter` column (printing a diagnostic), otherwise maps the three menu
  columns through fixed lookup tables (a missing key raises `KeyError`)
  and yields the remapped record.
* `generate_pdf` — renders each yielded tree via an external tool, then
  concatenates the per-page PDFs into the output file.
* `main` — argument parsing and the overwrite check on the output path.

XML trees are embedded as a nested inductive `Elem`; an lxml element has a
tag (with the namespace URI spliced in braces, as lxml does), an attribute
list, a text and a list of children.  Mutation of a subtree is modelled by
functional update at a *path* (list of child indices from the root).
-/

namespace SvgMerge

/-- An XML element as seen by lxml: qualified tag, attributes, text,
children.  lxml spells a namespaced tag as `{uri}localname`. -/
inductive Elem where
  | mk (tag : String) (attrs : List (String × String)) (text : String)
       (children : List Elem)

def Elem.tag : Elem → String
  | .mk t _ _ _ => t

def Elem.attrs : Elem → List (String × String)
  | .mk _ a _ _ => a

def Elem.text : Elem → String
  | .mk _ _ x _ => x

def Elem.children : Elem → List Elem
  | .mk _ _ _ cs => cs

/-- Attribute lookup (XML attribute names are unique per element, so the
first hit is the only one). -/
def getAttr (attrs : List (String × String)) (k : String) : Option String :=
  (attrs.find? (fun kv => kv.1 == k)).map (·.2)

/-- The `class` attribute of an element, as selected by `[@class='…']`. -/
def Elem.classAttr (e : Elem) : Option String :=
  getAttr e.attrs "class"

/-- lxml's qualified name for a tag in the SVG namespace of `NSMAP`:
`{http://www.w3.org/2000/svg}localname`. -/
def svgName (localName : String) : String :=
  "\x7bhttp://www.w3.org/2000/svg\x7d" ++ localName

/-- A node path: the list of child indices leading from a root to a
descendant.  `[]` is the root itself. -/
abbrev Path : Type := List Nat

/-- Subtree lookup along a path. -/
def getAt : Elem → List Nat → Option Elem
  | e, [] => some e
  | e, i :: p =>
    match e.children[i]? with
    | some c => getAt c p
    | none => none

/-- Replace the text of the node at `p` (lxml `e.text = v`); out-of-range
paths leave the tree unchanged. -/
def setTextAt : Elem → List Nat → String → Elem
  | .mk t a _ cs, [], v => .mk t a v cs
  | .mk t a x cs, i :: p, v =>
    match cs[i]? with
    | some c => .mk t a x (cs.set i (setTextAt c p v))
    | none => .mk t a x cs

/-- Apply `f` to the subtree at `p` (modelling in-place mutation of a
subtree); out-of-range paths leave the tree unchanged. -/
def updateAt : Elem → List Nat → (Elem → Elem) → Elem
  | e, [], f => f e
  | .mk t a x cs, i :: p, f =>
    match cs[i]? with
    | some c => .mk t a x (cs.set i (updateAt c p f))
    | none => .mk t a x cs

/-- Paths of all strict descendants of an element, in document order
(preorder), exactly the order `findall(".//…")` reports matches in. -/
def descendantPaths : Elem → List (List Nat)
  | .mk _ _ _ cs => go 0 cs
where
  go : Nat → List Elem → List (List Nat)
  | _, [] => []
  | i, c :: rest =>
    ([i] :: (descendantPaths c).map (fun p => i :: p)) ++ go (i + 1) rest

/-- Paths matched by `root.findall(".//*[@class='template']")`: strict
descendants, any tag, whose `class` attribute is exactly `template`,
in document order. -/
def templatePaths (root : Elem) : List (List Nat) :=
  (descendantPaths root).filter
    (fun p => (getAt root p).any (fun e => e.classAttr == some "template"))

/-- Paths matched by `template.findall(".//svg:ET[@class='CLS']")` for a
qualified tag name `tag`: strict descendants of `t` with that tag and
that `class` attribute, in document order. -/
def matchingPaths (t : Elem) (tag cls : String) : List (List Nat) :=
  (descendantPaths t).filter
    (fun p => (getAt t p).any (fun e => e.tag == tag && e.classAttr == some cls))

/-- `for e in found: e.text = v` for a precomputed list of match paths. -/
def setTexts (t : Elem) (ps : List (List Nat)) (v : String) : Elem :=
  ps.foldl (fun acc p => setTextAt acc p v) t

/-- One record field applied to one template region: the inner double loop
of `replace` — `for elem_type in ["tspan", "flowPara"]: for e in
template.findall(".//svg:{elem_type}[@class='{k}']"): e.text = v`. -/
def fillField (t : Elem) (k v : String) : Elem :=
  ["tspan", "flowPara"].foldl
    (fun acc et => setTexts acc (matchingPaths acc (svgName et) k) v) t

/-- One CSV-derived record: an ordered field-name / value mapping
(`dict` insertion order). -/
abbrev Record : Type := List (String × String)

/-- One template region filled with one record: `for k, v in
data_row.items(): …` applied to the region subtree. -/
def fillTemplate (t : Elem) (row : Record) : Elem :=
  row.foldl (fun acc kv => fillField acc kv.1 kv.2) t

/-- The loop of `replace` over the precomputed list of template-region
paths.  `next(replacements)` on a finite list either pops the head or
raises `StopIteration` (the `[]` case), which makes `replace` return
`(count, False)`.  Result: (mutated tree, count, go_again, rows left). -/
def replaceGo (root : Elem) (paths : List (List Nat)) (rows : List Record) :
    Elem × Nat × Bool × List Record :=
  match paths, rows with
  | [], rest => (root, 0, true, rest)
  | _ :: _, [] => (root, 0, false, [])
  | p :: ps, r :: rs =>
    let out := replaceGo (updateAt root p (fun t => fillTemplate t r)) ps rs
    (out.1, out.2.1 + 1, out.2.2.1, out.2.2.2)

/-- `replace(root, replacements)` on a finite row list: the template paths
are computed once by `findall` before any mutation (text assignment never
changes tags or attributes, so the snapshot stays valid). -/
def replaceFill (root : Elem) (rows : List Record) :
    Elem × Nat × Bool × List Record :=
  replaceGo root (templatePaths root) rows

/-- The body of `generate_page_svg_trees`, with explicit fuel standing for
the number of loop iterations: each pass deep-copies the (immutable)
master — in the functional model the copy is just `master` itself — runs
`replace`, yields the page when `count > 0`, and stops when `go_again` is
false.  `none` means the loop did not finish within `fuel` iterations. -/
def genPagesFuel (master : Elem) : Nat → List Record → Option (List Elem)
  | 0, _ => none
  | fuel + 1, rows =>
    let out := replaceFill master rows
    let yielded := if out.2.1 > 0 then [out.1] else []
    if out.2.2.1 then
      match genPagesFuel master fuel out.2.2.2 with
      | none => none
      | some pages => some (yielded ++ pages)
    else
      some yielded

/-- `generate_page_svg_trees` on a finite row list.  When the master has at
least one template region, `rows.length + 1` iterations always suffice
(proved below); with zero regions the Python loop never terminates and
this returns `none`. -/
def genPages (master : Elem) (rows : List Record) : Option (List Elem) :=
  genPagesFuel master (rows.length + 1) rows

/-- The page produced by `replace` when the iterator holds exactly the
rows of one page batch. -/
def fillPage (master : Elem) (chunk : List Record) : Elem :=
  (replaceFill master chunk).1

/-- Consecutive chunks of size `m` (fuelled so that it evaluates in the
kernel; `fuel ≥ l.length` and `m ≥ 1` make the fuel irrelevant). -/
def chunksOfFuel (m : Nat) : Nat → List Record → List (List Record)
  | _, [] => []
  | 0, l => [l]
  | fuel + 1, r :: l => (r :: l).take m :: chunksOfFuel m fuel ((r :: l).drop m)

/-- `l` split into consecutive chunks of `m` records — the successive
per-page batches of rows. -/
def chunksOf (m : Nat) (l : List Record) : List (List Record) :=
  chunksOfFuel m l.length l

/-- Boolean path-prefix test: `pathPre p q` holds when `q = p ++ r` for
some `r`, i.e. the node at `q` lies in the subtree rooted at `p` (or is
it). -/
def pathPre : List Nat → List Nat → Bool
  | [], _ => true
  | _ :: _, [] => false
  | i :: p, j :: q => i == j && pathPre p q

/-- Text of the node at a path, if the path exists. -/
def textAt (e : Elem) (p : List Nat) : Option String :=
  (getAt e p).map Elem.text

/-- Tag of the node at a path, if the path exists. -/
def tagAt (e : Elem) (p : List Nat) : Option String :=
  (getAt e p).map Elem.tag

/-- `class` attribute of the node at a path, if present. -/
def classAt (e : Elem) (p : List Nat) : Option String :=
  (getAt e p).bind Elem.classAttr

/-- Whether the node at `q` inside `t` is a binding slot for field `k`:
an `svg:tspan` or `svg:flowPara` element whose `class` equals `k` —
exactly the elements the inner loops of `replace` assign text to. -/
def slotClassAt (t : Elem) (q : List Nat) (k : String) : Bool :=
  (getAt t q).any fun n =>
    (n.tag == svgName "tspan" || n.tag == svgName "flowPara")
      && n.classAttr == some k

/-- The tree component of `replaceGo`, as a left fold: each region path is
updated in turn with its record. -/
def bindRegions (root : Elem) (l : List (List Nat × Record)) : Elem :=
  l.foldl (fun acc pr => updateAt acc pr.1 (fun t => fillTemplate t pr.2)) root

/-! ## The wedding-RSVP adapter (`filter_wedding_rsvp`) -/

/-- `starter_map` of the script, verbatim. -/
def starterMap : List (String × String) :=
  [("Asparagus, crispy duck egg, Somerset chorizo, rocket, extra virgin olive oil",
    "Asparagus, duck egg"),
   ("Shallot tart tatin, rocket, lemon thyme (V)", "Shallot tart tatin"),
   ("Griddled asparagus, lemon oil & rocket (Ve)", "Griddled asparagus")]

/-- `main_map` of the script, verbatim. -/
def mainMap : List (String × String) :=
  [("Fillet of Somerset beef, Dauphinoise potatoes, horseradish ice cream, red wine jus",
    "Fillet of Somerset beef"),
   ("Summer vegetable & harissa tagine with halloumi & preserved lemon, jasmine rice (V)",
    "Tagine with halloumi"),
   ("Summer vegetable & harissa tagine with preserved lemon, jasmine rice (Ve)",
    "Tagine (Ve)")]

/-- `dessert_map` of the script, verbatim. -/
def dessertMap : List (String × String) :=
  [("Chocolate and star anise sunken souffle, hazelnut ice cream (V)",
    "Chocolate souffle"),
   ("Lemon meringue pie with blueberry compote, caramelized lemon (V)",
    "Lemon meringue pie"),
   ("Fresh fruit salad (Ve)", "Fruit salad")]

/-- A raw CSV row as produced by `csv.DictReader`: column-name / value
pairs. -/
abbrev RawRow : Type := List (String × String)

/-- Python `d[key]`: `some` value, or `none` standing for the raised
`KeyError`. -/
def dictGet (d : List (String × String)) (k : String) : Option String :=
  getAttr d k

/-- Outcome of the adapter body on one row: an uncaught `KeyError`
(aborting the whole run), a skip with its printed diagnostic, or a yield
with its printed diagnostic and the remapped record. -/
inductive AdaptResult where
  | err (msg : String)
  | skip (diagnostic : String)
  | yield (diagnostic : String) (r : Record)

/-- One iteration of `filter_wedding_rsvp`, with lookups in the source
evaluation order: `row['Starter']` for the emptiness check; on the skip
branch `row['Name of Guest 1']` for the message; otherwise
`row['Name of Guest']` for the message, then the three map lookups, each
raising `KeyError` on a miss. -/
def adaptRow (row : RawRow) : AdaptResult :=
  match dictGet row "Starter" with
  | none => .err "KeyError: Starter"
  | some st =>
    if st = "" then
      match dictGet row "Name of Guest 1" with
      | none => .err "KeyError: Name of Guest 1"
      | some n1 => .skip ("Skipping guest " ++ n1)
    else
      match dictGet row "Name of Guest" with
      | none => .err "KeyError: Name of Guest"
      | some n =>
        match dictGet starterMap st with
        | none => .err ("KeyError: " ++ st)
        | some starterShort =>
          match dictGet row "Main course" with
          | none => .err "KeyError: Main course"
          | some mc =>
            match dictGet mainMap mc with
            | none => .err ("KeyError: " ++ mc)
            | some mainShort =>
              match dictGet row "Dessert" with
              | none => .err "KeyError: Dessert"
              | some ds =>
                match dictGet dessertMap ds with
                | none => .err ("KeyError: " ++ ds)
                | some dessertShort =>
                  .yield ("Preparing guest " ++ n)
                    [("name", n), ("starter", starterShort),
                     ("main", mainShort), ("dessert", dessertShort)]

/-- `filter_wedding_rsvp` over a finite list of raw rows: the records it
yields before any failure, the diagnostics it prints, and the `KeyError`
message if one is raised.  (The Python generator is lazy; on a finite
input the yielded records, printed lines and terminal outcome are as
collected here.) -/
def filterWeddingRsvp : List RawRow → List Record × List String × Option String
  | [] => ([], [], none)
  | row :: rest =>
    match adaptRow row with
    | .err m => ([], [], some m)
    | .skip d =>
      let out := filterWeddingRsvp rest
      (out.1, d :: out.2.1, out.2.2)
    | .yield d r =>
      let out := filterWeddingRsvp rest
      (r :: out.1, d :: out.2.1, out.2.2)

/-! ## The rendering pipeline (`generate_pdf` driven by `process_csv`) -/

/-- Externally visible pipeline events: one per `svg_tree_to_pdf` call
(page rendered by the external tool), the final output write
(`concatenate_pdfs`), and an uncaught exception aborting the run. -/
inductive Ev where
  | rendered (page : Elem)
  | wroteOutput
  | errored (msg : String)

/-- The loop of `replace` when the row iterator is the adapter stream that
raises `KeyError` after its last good record instead of `StopIteration`:
`none` models the exception propagating out of `replace` (it catches only
`StopIteration`), discarding the partially filled page. -/
def replaceErrGo (root : Elem) (paths : List (List Nat)) (recs : List Record) :
    Option (Elem × Nat × List Record) :=
  match paths, recs with
  | [], rest => some (root, 0, rest)
  | _ :: _, [] => none
  | p :: ps, r :: rs =>
    (replaceErrGo (updateAt root p (fun t => fillTemplate t r)) ps rs).map
      (fun out => (out.1, out.2.1 + 1, out.2.2))

/-- `generate_page_svg_trees` over the erroring stream: pages yielded
before the exception surfaces.  There is no `StopIteration`, so
`go_again` is true on every completed pass; the loop ends only when the
exception escapes (`replaceErrGo` returns `none`).  Outer `none`: fuel
ran out, i.e. the Python loop would not have terminated. -/
def pageLoopErrFuel (master : Elem) : Nat → List Record → Option (List Elem)
  | 0, _ => none
  | fuel + 1, recs =>
    match replaceErrGo master (templatePaths master) recs with
    | none => some []
    | some out =>
      let yielded := if out.2.1 > 0 then [out.1] else []
      match pageLoopErrFuel master fuel out.2.2 with
      | none => none
      | some pages => some (yielded ++ pages)

/-- The event trace of `process_csv`/`generate_pdf` on a finite CSV: each
yielded page is rendered (`svg_tree_to_pdf`) as it is produced; if the
adapter stream ends normally the per-page PDFs are concatenated into the
output file, and if it raises the exception aborts the run after the
pages already rendered, before any output write.  `none`: the page loop
would not terminate (zero template regions). -/
def runTrace (master : Elem) (raws : List RawRow) : Option (List Ev) :=
  let out := filterWeddingRsvp raws
  match out.2.2 with
  | none =>
    (genPagesFuel master (out.1.length + 1) out.1).map
      (fun pages => pages.map Ev.rendered ++ [Ev.wroteOutput])
  | some e =>
    (pageLoopErrFuel master (out.1.length + 1) out.1).map
      (fun pages => pages.map Ev.rendered ++ [Ev.errored e])

/-! ## The CLI overwrite check (`main`, lines 148–166) -/

/-- What `main` decides before calling `process_csv`.  `promptUser` is the
interactive confirmation described by the spec; the corresponding
`input(...)` call is commented out in the source (\"BH - For now, always
overwrite\"), so no code path produces it. -/
inductive MainOutcome where
  | promptUser (path : String)
  | abort (exitCode : Nat) (message : String)
  | run (force : Bool)

/-- The overwrite check of `main`: with `--force` absent and the output
path existing, a terminal on stdin silently enables overwrite, otherwise
the run aborts with exit code 1 and the `--force` hint on stderr. -/
def mainDecision (force fileExists isatty : Bool) (outPath : String) :
    MainOutcome :=
  if !force && fileExists then
    if isatty then
      .run true
    else
      .abort 1 ("Error: file " ++ outPath
        ++ " already exists. Use --force to overwrite.\nAborted")
  else
    .run force

/-! ## Concrete inputs used by witnesses and counterexamples -/

/-- A binding slot: `svg:tspan` with the given `class` and placeholder. -/
def exSlot (cls txt : String) : Elem :=
  .mk (svgName "tspan") [("class", cls)] txt []

/-- A template region (`class="template"`) with the given children. -/
def exRegion (cs : List Elem) : Elem :=
  .mk (svgName "g") [("class", "template")] "" cs

/-- A master page with two disjoint template regions of two slots each. -/
def exMaster2 : Elem :=
  .mk (svgName "svg") [] ""
    [exRegion [exSlot "name" "NAME", exSlot "starter" "STARTER"],
     exRegion [exSlot "name" "NAME", exSlot "starter" "STARTER"]]

/-- A master page with a single template region. -/
def exMaster1 : Elem :=
  .mk (svgName "svg") [] ""
    [exRegion [exSlot "name" "NAME", exSlot "starter" "STARTER"]]

/-- A master page with no template region at all. -/
def exNoRegion : Elem :=
  .mk (svgName "svg") [] "" [.mk (svgName "g") [] "" [exSlot "name" "NAME"]]

/-- A master page whose second template region is nested inside the
first. -/
def exNested : Elem :=
  .mk (svgName "svg") [] ""
    [.mk (svgName "g") [("class", "template")] ""
      [.mk (svgName "g") [("class", "template")] ""
        [exSlot "x" "PLACEHOLDER"]]]

def exRec1 : Record := [("name", "Alice"), ("starter", "Soup")]

def exRec2 : Record := [("name", "Bob"), ("starter", "Fish")]

def exRec3 : Record := [("name", "Carol"), ("starter", "Egg")]

/-- A record whose only field matches no slot of `exMaster1`. -/
def exRecNoSlot : Record := [("phone", "555")]

/-- A single region with one bound slot and one unrelated slot. -/
def exRegionW : Elem :=
  exRegion [exSlot "name" "NAME", exSlot "extra" "KEEP"]

/-- The region of `exMaster1`, on its own. -/
def exRegionNS : Elem :=
  exRegion [exSlot "name" "NAME", exSlot "starter" "STARTER"]

/-- The record the adapter yields for `exRawGood`. -/
def exRecGood : Record :=
  [("name", "Alice"), ("starter", "Shallot tart tatin"),
   ("main", "Fillet of Somerset beef"), ("dessert", "Fruit salad")]

/-- A raw CSV row with every menu value inside the lookup tables. -/
def exRawGood : RawRow :=
  [("Name of Guest", "Alice"), ("Name of Guest 1", "Alice"),
   ("Starter", "Shallot tart tatin, rocket, lemon thyme (V)"),
   ("Main course",
    "Fillet of Somerset beef, Dauphinoise potatoes, horseradish ice cream, red wine jus"),
   ("Dessert", "Fresh fruit salad (Ve)")]

/-- A raw CSV row whose `Starter` value is absent from `starter_map`. -/
def exRawBad : RawRow :=
  [("Name of Guest", "Bob"), ("Name of Guest 1", "Bob"),
   ("Starter", "Garlic bread"),
   ("Main course",
    "Fillet of Somerset beef, Dauphinoise potatoes, horseradish ice cream, red wine jus"),
   ("Dessert", "Fresh fruit salad (Ve)")]

/-- A raw CSV row with an empty `Starter` column (required-field check
fails, so the adapter skips it). -/
def exRawSkip : RawRow :=
  [("Name of Guest", "Carol"), ("Name of Guest 1", "Carol and guest"),
   ("Starter", ""),
   ("Main course",
    "Summer vegetable & harissa tagine with preserved lemon, jasmine rice (Ve)"),
   ("Dessert", "Fresh fruit salad (Ve)")]

/-! ## Infrastructure: paths, `setTextAt`, `updateAt` -/

theorem getAt_cons (e : Elem) (i : Nat) (p : List Nat) :
    getAt e (i :: p) = e.children[i]?.bind fun c => getAt c p := by
  cases h : e.children[i]? <;> simp [getAt, h]

theorem getAt_append (p : List Nat) : ∀ (q : List Nat) (e : Elem),
    getAt e (p ++ q) = (getAt e p).bind fun n => getAt n q := by
  induction p with
  | nil => intro q e; rfl
  | cons i p ih =>
    intro q e
    rw [List.cons_append, getAt_cons, getAt_cons]
    cases e.children[i]? <;> simp [ih]

theorem setTextAt_nil (e : Elem) (v : String) :
    setTextAt e [] v = .mk e.tag e.attrs v e.children := by
  cases e; rfl

theorem setTextAt_tag (e : Elem) (p : List Nat) (v : String) :
    (setTextAt e p v).tag = e.tag := by
  cases e with
  | mk t a x cs =>
    cases p with
    | nil => rfl
    | cons i p => cases h : cs[i]? <;> simp [setTextAt, h, Elem.tag]

theorem setTextAt_attrs (e : Elem) (p : List Nat) (v : String) :
    (setTextAt e p v).attrs = e.attrs := by
  cases e with
  | mk t a x cs =>
    cases p with
    | nil => rfl
    | cons i p => cases h : cs[i]? <;> simp [setTextAt, h, Elem.attrs]

theorem setTextAt_classAttr (e : Elem) (p : List Nat) (v : String) :
    (setTextAt e p v).classAttr = e.classAttr := by
  rw [Elem.classAttr, setTextAt_attrs, Elem.classAttr]

theorem setTextAt_text_cons (e : Elem) (i : Nat) (p : List Nat) (v : String) :
    (setTextAt e (i :: p) v).text = e.text := by
  cases e with
  | mk t a x cs => cases h : cs[i]? <;> simp [setTextAt, h, Elem.text]

theorem pathPre_iff (p : List Nat) : ∀ q, pathPre p q = true ↔ ∃ r, q = p ++ r := by
  induction p with
  | nil =>
    intro q
    simp [pathPre]
  | cons i p ih =>
    intro q
    cases q with
    | nil =>
      simp [pathPre]
    | cons j q' =>
      simp [pathPre, Bool.and_eq_true, beq_iff_eq, ih]
      exact fun _ _ => eq_comm

theorem pathPre_refl (p : List Nat) : pathPre p p = true :=
  (pathPre_iff p p).mpr ⟨[], (List.append_nil p).symm⟩

theorem pathPre_append (p r : List Nat) : pathPre p (p ++ r) = true :=
  (pathPre_iff p (p ++ r)).mpr ⟨r, rfl⟩

theorem getAt_setTextAt_pre (q : List Nat) : ∀ (r : List Nat) (e : Elem) (v : String),
    getAt (setTextAt e (q ++ r) v) q = (getAt e q).map fun n => setTextAt n r v := by
  induction q with
  | nil => intro r e v; rfl
  | cons j q ih =>
    intro r e v
    cases e with
    | mk t a x cs =>
      rw [List.cons_append]
      cases h : cs[j]? with
      | none => simp [setTextAt, h, getAt_cons, Elem.children]
      | some c =>
        have hlt : j < cs.length := (List.getElem?_eq_some.mp h).1
        simp [setTextAt, h, getAt_cons, Elem.children,
          List.getElem?_set_self hlt, ih]

theorem getAt_setTextAt_off (q : List Nat) : ∀ (p : List Nat) (e : Elem) (v : String),
    (∀ r, p ≠ q ++ r) → getAt (setTextAt e p v) q = getAt e q := by
  induction q with
  | nil => intro p e v h; exact absurd rfl (h p)
  | cons j q ih =>
    intro p e v h
    cases e with
    | mk t a x cs =>
      cases p with
      | nil =>
        simp [setTextAt_nil, getAt_cons, Elem.children, Elem.tag, Elem.attrs]
      | cons i p' =>
        cases h' : cs[i]? with
        | none => simp [setTextAt, h']
        | some c =>
          by_cases hij : i = j
          · subst hij
            have hlt : i < cs.length := (List.getElem?_eq_some.mp h').1
            have h2 : ∀ r, p' ≠ q ++ r := fun r hr => h r (by rw [hr]; rfl)
            simp [setTextAt, h', getAt_cons, Elem.children,
              List.getElem?_set_self hlt, ih p' _ v h2]
          · simp [setTextAt, h', getAt_cons, Elem.children,
              List.getElem?_set_ne hij]

theorem not_pre_of_pathPre_false {q p : List Nat} (h : pathPre q p = false) :
    ∀ r, p ≠ q ++ r := by
  intro r hr
  have := (pathPre_iff q p).mpr ⟨r, hr⟩
  rw [h] at this
  exact Bool.false_ne_true this

theorem textAt_setTextAt (e : Elem) (p q : List Nat) (v : String) :
    textAt (setTextAt e p v) q =
      if p = q ∧ (getAt e q).isSome then some v else textAt e q := by
  by_cases hpre : pathPre q p = true
  · obtain ⟨r, rfl⟩ := (pathPre_iff q p).mp hpre
    rw [textAt, getAt_setTextAt_pre]
    cases r with
    | nil =>
      cases hq : getAt e q with
      | none => simp [textAt, hq]
      | some n => simp [textAt, hq, setTextAt_nil, Elem.text]
    | cons s r' =>
      have hne : ¬(q ++ s :: r' = q ∧ (getAt e q).isSome) := by
        rintro ⟨hh, -⟩
        have := congrArg List.length hh
        simp at this
      cases hq : getAt e q with
      | none => simp [textAt, hq, hne]
      | some n => simp [textAt, hq, hne, setTextAt_text_cons]
  · rw [textAt,
      getAt_setTextAt_off q p e v
        (not_pre_of_pathPre_false (Bool.not_eq_true _ ▸ hpre)), ← textAt]
    have hne : ¬(p = q ∧ (getAt e q).isSome) := by
      rintro ⟨rfl, -⟩
      exact hpre (pathPre_refl p)
    simp [hne]

theorem getAt_setTextAt_any (f : Elem → Bool)
    (hf : ∀ (n : Elem) (r : List Nat) (v : String), f (setTextAt n r v) = f n)
    (e : Elem) (p q : List Nat) (v : String) :
    (getAt (setTextAt e p v) q).any f = (getAt e q).any f := by
  by_cases hpre : pathPre q p = true
  · obtain ⟨r, rfl⟩ := (pathPre_iff q p).mp hpre
    rw [getAt_setTextAt_pre]
    cases getAt e q <;> simp [hf]
  · rw [getAt_setTextAt_off q p e v
      (not_pre_of_pathPre_false (Bool.not_eq_true _ ▸ hpre))]

theorem isSome_getAt_setTextAt (e : Elem) (p q : List Nat) (v : String) :
    (getAt (setTextAt e p v) q).isSome = (getAt e q).isSome := by
  by_cases hpre : pathPre q p = true
  · obtain ⟨r, rfl⟩ := (pathPre_iff q p).mp hpre
    rw [getAt_setTextAt_pre]
    cases getAt e q <;> simp
  · rw [getAt_setTextAt_off q p e v
      (not_pre_of_pathPre_false (Bool.not_eq_true _ ▸ hpre))]

theorem tagAt_setTextAt (e : Elem) (p q : List Nat) (v : String) :
    tagAt (setTextAt e p v) q = tagAt e q := by
  by_cases hpre : pathPre q p = true
  · obtain ⟨r, rfl⟩ := (pathPre_iff q p).mp hpre
    rw [tagAt, getAt_setTextAt_pre]
    cases hq : getAt e q <;> simp [tagAt, hq, setTextAt_tag]
  · rw [tagAt, getAt_setTextAt_off q p e v
      (not_pre_of_pathPre_false (Bool.not_eq_true _ ▸ hpre)), tagAt]

theorem classAt_setTextAt (e : Elem) (p q : List Nat) (v : String) :
    classAt (setTextAt e p v) q = classAt e q := by
  by_cases hpre : pathPre q p = true
  · obtain ⟨r, rfl⟩ := (pathPre_iff q p).mp hpre
    rw [classAt, getAt_setTextAt_pre]
    cases hq : getAt e q <;> simp [classAt, hq, setTextAt_classAttr]
  · rw [classAt, getAt_setTextAt_off q p e v
      (not_pre_of_pathPre_false (Bool.not_eq_true _ ▸ hpre)), classAt]

theorem descendantPaths_go_set : ∀ (cs : List Elem) (j i : Nat) (c c' : Elem),
    cs[i]? = some c → descendantPaths c' = descendantPaths c →
    descendantPaths.go j (cs.set i c') = descendantPaths.go j cs := by
  intro cs
  induction cs with
  | nil => intro j i c c' h _; simp at h
  | cons c0 cs ih =>
    intro j i c c' h hdp
    cases i with
    | zero =>
      simp at h
      subst h
      show descendantPaths.go j (c' :: cs) = descendantPaths.go j (c0 :: cs)
      simp [descendantPaths.go, hdp]
    | succ n =>
      simp at h
      show descendantPaths.go j (c0 :: cs.set n c') = descendantPaths.go j (c0 :: cs)
      simp [descendantPaths.go, ih (j + 1) n c c' h hdp]

theorem descendantPaths_setTextAt (p : List Nat) : ∀ (e : Elem) (v : String),
    descendantPaths (setTextAt e p v) = descendantPaths e := by
  induction p with
  | nil => intro e v; cases e; rfl
  | cons i p ih =>
    intro e v
    cases e with
    | mk t a x cs =>
      cases h : cs[i]? with
      | none => simp [setTextAt, h]
      | some c =>
        show descendantPaths (setTextAt (.mk t a x cs) (i :: p) v) = _
        simp only [setTextAt, h]
        show descendantPaths (.mk t a x (cs.set i (setTextAt c p v))) = _
        show descendantPaths.go 0 (cs.set i (setTextAt c p v)) = descendantPaths.go 0 cs
        exact descendantPaths_go_set cs 0 i c _ h (ih c v)

theorem templatePaths_setTextAt (e : Elem) (p : List Nat) (v : String) :
    templatePaths (setTextAt e p v) = templatePaths e := by
  rw [templatePaths, templatePaths, descendantPaths_setTextAt]
  apply List.filter_congr
  intro q _
  exact getAt_setTextAt_any _ (fun n r v => by rw [setTextAt_classAttr]) e p q v

theorem matchingPaths_setTextAt (e : Elem) (tag cls : String) (p : List Nat)
    (v : String) :
    matchingPaths (setTextAt e p v) tag cls = matchingPaths e tag cls := by
  rw [matchingPaths, matchingPaths, descendantPaths_setTextAt]
  apply List.filter_congr
  intro q _
  exact getAt_setTextAt_any _
    (fun n r v => by rw [setTextAt_tag, setTextAt_classAttr]) e p q v

/-! ## Infrastructure: `setTexts`, `fillField`, `fillTemplate` -/

theorem setTexts_nil (t : Elem) (v : String) : setTexts t [] v = t := rfl

theorem setTexts_cons (t : Elem) (p : List Nat) (ps : List (List Nat))
    (v : String) : setTexts t (p :: ps) v = setTexts (setTextAt t p v) ps v := rfl

theorem isSome_getAt_setTexts (ps : List (List Nat)) :
    ∀ (t : Elem) (q : List Nat) (v : String),
    (getAt (setTexts t ps v) q).isSome = (getAt t q).isSome := by
  induction ps with
  | nil => intro t q v; rfl
  | cons p ps ih =>
    intro t q v
    rw [setTexts_cons, ih, isSome_getAt_setTextAt]

theorem tagAt_setTexts (ps : List (List Nat)) :
    ∀ (t : Elem) (q : List Nat) (v : String),
    tagAt (setTexts t ps v) q = tagAt t q := by
  induction ps with
  | nil => intro t q v; rfl
  | cons p ps ih =>
    intro t q v
    rw [setTexts_cons, ih, tagAt_setTextAt]

theorem classAt_setTexts (ps : List (List Nat)) :
    ∀ (t : Elem) (q : List Nat) (v : String),
    classAt (setTexts t ps v) q = classAt t q := by
  induction ps with
  | nil => intro t q v; rfl
  | cons p ps ih =>
    intro t q v
    rw [setTexts_cons, ih, classAt_setTextAt]

theorem descendantPaths_setTexts (ps : List (List Nat)) :
    ∀ (t : Elem) (v : String),
    descendantPaths (setTexts t ps v) = descendantPaths t := by
  induction ps with
  | nil => intro t v; rfl
  | cons p ps ih =>
    intro t v
    rw [setTexts_cons, ih, descendantPaths_setTextAt]

theorem matchingPaths_setTexts (ps : List (List Nat)) :
    ∀ (t : Elem) (tag cls : String) (v : String),
    matchingPaths (setTexts t ps v) tag cls = matchingPaths t tag cls := by
  induction ps with
  | nil => intro t tag cls v; rfl
  | cons p ps ih =>
    intro t tag cls v
    rw [setTexts_cons, ih, matchingPaths_setTextAt]

theorem getAt_any_setTexts (f : Elem → Bool)
    (hf : ∀ (n : Elem) (r : List Nat) (v : String), f (setTextAt n r v) = f n)
    (ps : List (List Nat)) : ∀ (t : Elem) (q : List Nat) (v : String),
    (getAt (setTexts t ps v) q).any f = (getAt t q).any f := by
  induction ps with
  | nil => intro t q v; rfl
  | cons p ps ih =>
    intro t q v
    rw [setTexts_cons, ih, getAt_setTextAt_any f hf]

theorem textAt_setTexts (ps : List (List Nat)) :
    ∀ (t : Elem) (q : List Nat) (v : String),
    textAt (setTexts t ps v) q =
      if q ∈ ps ∧ (getAt t q).isSome then some v else textAt t q := by
  induction ps with
  | nil => intro t q v; simp [setTexts_nil]
  | cons p ps ih =>
    intro t q v
    rw [setTexts_cons, ih, isSome_getAt_setTextAt, textAt_setTextAt]
    by_cases hs : (getAt t q).isSome
    · by_cases hmem : q ∈ ps
      · simp [hs, hmem, List.mem_cons]
      · by_cases hpq : p = q
        · simp [hs, hmem, hpq, List.mem_cons]
        · have : ¬q = p := fun hh => hpq hh.symm
          simp [hs, hmem, hpq, this, List.mem_cons]
    · simp [hs]

/-- `fillField` with the second `findall` snapshot rewritten back to the
original region (text assignment keeps tags, attributes and structure, so
the two snapshots coincide). -/
theorem fillField_eq (t : Elem) (k v : String) :
    fillField t k v =
      setTexts (setTexts t (matchingPaths t (svgName "tspan") k) v)
        (matchingPaths t (svgName "flowPara") k) v := by
  show setTexts (setTexts t (matchingPaths t (svgName "tspan") k) v)
      (matchingPaths (setTexts t (matchingPaths t (svgName "tspan") k) v)
        (svgName "flowPara") k) v = _
  rw [matchingPaths_setTexts]

theorem mem_matchingPaths (t : Elem) (tag cls : String) (q : List Nat) :
    q ∈ matchingPaths t tag cls ↔
      q ∈ descendantPaths t ∧
        (getAt t q).any (fun n => n.tag == tag && n.classAttr == some cls) = true := by
  simp [matchingPaths, List.mem_filter]

theorem isSome_of_any {o : Option Elem} {f : Elem → Bool} (h : o.any f = true) :
    o.isSome := by
  cases o with
  | none => simp [Option.any] at h
  | some n => rfl

theorem slotClassAt_eq_or (t : Elem) (q : List Nat) (k : String) :
    slotClassAt t q k =
      ((getAt t q).any (fun n => n.tag == svgName "tspan" && n.classAttr == some k)
        || (getAt t q).any (fun n => n.tag == svgName "flowPara" && n.classAttr == some k)) := by
  have hb : ∀ a b c : Bool, ((a || b) && c) = (a && c || b && c) := by decide
  rw [slotClassAt]
  cases getAt t q with
  | none => rfl
  | some n => exact hb _ _ _

theorem textAt_fillField (t : Elem) (k v : String) (q : List Nat) :
    textAt (fillField t k v) q =
      if q ∈ descendantPaths t ∧ slotClassAt t q k = true then some v
      else textAt t q := by
  rw [fillField_eq, textAt_setTexts, isSome_getAt_setTexts, textAt_setTexts]
  by_cases hB : q ∈ matchingPaths t (svgName "flowPara") k
  · obtain ⟨hdp, hfl⟩ := (mem_matchingPaths t _ k q).mp hB
    have hsome := isSome_of_any hfl
    have hslot : slotClassAt t q k = true := by
      rw [slotClassAt_eq_or, hfl, Bool.or_true]
    simp [hB, hsome, hdp, hslot]
  · by_cases hA : q ∈ matchingPaths t (svgName "tspan") k
    · obtain ⟨hdp, hts⟩ := (mem_matchingPaths t _ k q).mp hA
      have hsome := isSome_of_any hts
      have hslot : slotClassAt t q k = true := by
        rw [slotClassAt_eq_or, hts, Bool.true_or]
      simp [hB, hA, hsome, hdp, hslot]
    · have hcond : ¬(q ∈ descendantPaths t ∧ slotClassAt t q k = true) := by
        rintro ⟨hdp, hslot⟩
        rw [slotClassAt_eq_or] at hslot
        rcases Bool.or_eq_true_iff.mp hslot with hts | hfl
        · exact hA ((mem_matchingPaths t _ k q).mpr ⟨hdp, hts⟩)
        · exact hB ((mem_matchingPaths t _ k q).mpr ⟨hdp, hfl⟩)
      simp [hB, hA, hcond]

theorem tagAt_fillField (t : Elem) (k v : String) (q : List Nat) :
    tagAt (fillField t k v) q = tagAt t q := by
  rw [fillField_eq, tagAt_setTexts, tagAt_setTexts]

theorem classAt_fillField (t : Elem) (k v : String) (q : List Nat) :
    classAt (fillField t k v) q = classAt t q := by
  rw [fillField_eq, classAt_setTexts, classAt_setTexts]

theorem descendantPaths_fillField (t : Elem) (k v : String) :
    descendantPaths (fillField t k v) = descendantPaths t := by
  rw [fillField_eq, descendantPaths_setTexts, descendantPaths_setTexts]

theorem slotClassAt_fillField (t : Elem) (k v : String) (q : List Nat)
    (k' : String) : slotClassAt (fillField t k v) q k' = slotClassAt t q k' := by
  rw [fillField_eq, slotClassAt, slotClassAt]
  rw [getAt_any_setTexts _ (fun n r v => by
        rw [setTextAt_tag, setTextAt_classAttr]),
      getAt_any_setTexts _ (fun n r v => by
        rw [setTextAt_tag, setTextAt_classAttr])]

theorem isSome_getAt_fillField (t : Elem) (k v : String) (q : List Nat) :
    (getAt (fillField t k v) q).isSome = (getAt t q).isSome := by
  rw [fillField_eq, isSome_getAt_setTexts, isSome_getAt_setTexts]

theorem fillTemplate_nil (t : Elem) : fillTemplate t [] = t := rfl

theorem fillTemplate_cons (t : Elem) (kv : String × String) (row : Record) :
    fillTemplate t (kv :: row) = fillTemplate (fillField t kv.1 kv.2) row := rfl

theorem tagAt_fillTemplate (row : Record) : ∀ (t : Elem) (q : List Nat),
    tagAt (fillTemplate t row) q = tagAt t q := by
  induction row with
  | nil => intro t q; rfl
  | cons kv row ih =>
    intro t q
    rw [fillTemplate_cons, ih, tagAt_fillField]

theorem classAt_fillTemplate (row : Record) : ∀ (t : Elem) (q : List Nat),
    classAt (fillTemplate t row) q = classAt t q := by
  induction row with
  | nil => intro t q; rfl
  | cons kv row ih =>
    intro t q
    rw [fillTemplate_cons, ih, classAt_fillField]

theorem slotClassAt_fillTemplate (row : Record) :
    ∀ (t : Elem) (q : List Nat) (k' : String),
    slotClassAt (fillTemplate t row) q k' = slotClassAt t q k' := by
  induction row with
  | nil => intro t q k'; rfl
  | cons kv row ih =>
    intro t q k'
    rw [fillTemplate_cons, ih, slotClassAt_fillField]

theorem descendantPaths_fillTemplate (row : Record) : ∀ (t : Elem),
    descendantPaths (fillTemplate t row) = descendantPaths t := by
  induction row with
  | nil => intro t; rfl
  | cons kv row ih =>
    intro t
    rw [fillTemplate_cons, ih, descendantPaths_fillField]

/-- Frame property of one region fill: a node whose label matches no field
of the record keeps its text. -/
theorem textAt_fillTemplate_frame (row : Record) : ∀ (t : Elem) (q : List Nat),
    (∀ kv ∈ row, slotClassAt t q kv.1 = false) →
    textAt (fillTemplate t row) q = textAt t q := by
  induction row with
  | nil => intro t q _; rfl
  | cons kv row ih =>
    intro t q h
    rw [fillTemplate_cons]
    have h0 : slotClassAt t q kv.1 = false := h kv (List.mem_cons_self kv row)
    have hrest : ∀ kv' ∈ row, slotClassAt (fillField t kv.1 kv.2) q kv'.1 = false := by
      intro kv' hkv'
      rw [slotClassAt_fillField]
      exact h kv' (List.mem_cons_of_mem kv hkv')
    rw [ih _ q hrest, textAt_fillField]
    have : ¬(q ∈ descendantPaths t ∧ slotClassAt t q kv.1 = true) := by
      rintro ⟨-, hs⟩
      rw [h0] at hs
      exact Bool.false_ne_true hs
    simp [this]

/-- A field with no matching slot anywhere in the region is a no-op. -/
theorem fillField_id (t : Elem) (k v : String)
    (h : ∀ q ∈ descendantPaths t, slotClassAt t q k = false) :
    fillField t k v = t := by
  have hA : matchingPaths t (svgName "tspan") k = [] := by
    apply List.filter_eq_nil_iff.mpr
    intro q hq
    have := h q hq
    rw [slotClassAt_eq_or] at this
    intro hc
    rw [Bool.or_eq_false_iff] at this
    rw [this.1] at hc
    exact Bool.false_ne_true hc
  have hB : matchingPaths t (svgName "flowPara") k = [] := by
    apply List.filter_eq_nil_iff.mpr
    intro q hq
    have := h q hq
    rw [slotClassAt_eq_or] at this
    intro hc
    rw [Bool.or_eq_false_iff] at this
    rw [this.2] at hc
    exact Bool.false_ne_true hc
  rw [fillField_eq, hA, setTexts_nil, hB, setTexts_nil]

/-- A record none of whose fields matches any slot of the region leaves
the region untouched. -/
theorem fillTemplate_id (row : Record) : ∀ (t : Elem),
    (∀ kv ∈ row, ∀ q ∈ descendantPaths t, slotClassAt t q kv.1 = false) →
    fillTemplate t row = t := by
  induction row with
  | nil => intro t _; rfl
  | cons kv row ih =>
    intro t h
    rw [fillTemplate_cons,
      fillField_id t kv.1 kv.2 (h kv (List.mem_cons_self kv row))]
    exact ih t fun kv' hkv' => h kv' (List.mem_cons_of_mem kv hkv')

/-! ## Infrastructure: `updateAt`, `bindRegions`, `replaceGo` -/

theorem getAt_updateAt_self (p : List Nat) : ∀ (e : Elem) (f : Elem → Elem),
    getAt (updateAt e p f) p = (getAt e p).map f := by
  induction p with
  | nil => intro e f; simp [updateAt, getAt]
  | cons i p ih =>
    intro e f
    cases e with
    | mk t a x cs =>
      cases h : cs[i]? with
      | none => simp [updateAt, h, getAt_cons, Elem.children]
      | some c =>
        have hlt : i < cs.length := (List.getElem?_eq_some.mp h).1
        simp [updateAt, h, getAt_cons, Elem.children,
          List.getElem?_set_self hlt, ih]

theorem getAt_updateAt_append (p s : List Nat) (e : Elem) (f : Elem → Elem) :
    getAt (updateAt e p f) (p ++ s) =
      ((getAt e p).map f).bind fun n => getAt n s := by
  rw [getAt_append, getAt_updateAt_self]

theorem getAt_updateAt_off (tq : List Nat) : ∀ (p : List Nat) (e : Elem)
    (f : Elem → Elem), pathPre p tq = false → pathPre tq p = false →
    getAt (updateAt e p f) tq = getAt e tq := by
  induction tq with
  | nil =>
    intro p e f _ h2
    rw [pathPre] at h2
    exact absurd h2 (by simp)
  | cons j tq ih =>
    intro p e f h1 h2
    cases p with
    | nil =>
      rw [pathPre] at h1
      exact absurd h1 (by simp)
    | cons i p' =>
      cases e with
      | mk t a x cs =>
        cases h' : cs[i]? with
        | none => simp [updateAt, h']
        | some c =>
          by_cases hij : i = j
          · subst hij
            have hlt : i < cs.length := (List.getElem?_eq_some.mp h').1
            rw [pathPre] at h1 h2
            simp only [beq_self_eq_true, Bool.true_and] at h1 h2
            simp [updateAt, h', getAt_cons, Elem.children,
              List.getElem?_set_self hlt, ih p' c f h1 h2]
          · simp [updateAt, h', getAt_cons, Elem.children,
              List.getElem?_set_ne hij]

theorem pathPre_trans {p q l : List Nat} (h1 : pathPre p q = true)
    (h2 : pathPre q l = true) : pathPre p l = true := by
  obtain ⟨r1, rfl⟩ := (pathPre_iff p q).mp h1
  obtain ⟨r2, rfl⟩ := (pathPre_iff (p ++ r1) l).mp h2
  exact (pathPre_iff p _).mpr ⟨r1 ++ r2, List.append_assoc p r1 r2⟩

theorem pathPre_total (p : List Nat) : ∀ (q l : List Nat),
    pathPre p l = true → pathPre q l = true →
    (pathPre p q = true ∨ pathPre q p = true) := by
  induction p with
  | nil => intro q l _ _; left; rfl
  | cons i p ih =>
    intro q l h1 h2
    cases q with
    | nil => right; rfl
    | cons j q' =>
      cases l with
      | nil => rw [pathPre] at h1; exact absurd h1 (by simp)
      | cons a l' =>
        rw [pathPre] at h1 h2
        rw [Bool.and_eq_true, beq_iff_eq] at h1 h2
        obtain ⟨rfl, h1'⟩ := h1
        obtain ⟨rfl, h2'⟩ := h2
        rcases ih q' l' h1' h2' with h | h
        · left; rw [pathPre, h]; simp
        · right; rw [pathPre, h]; simp

/-- A path incomparable with `p0` is incomparable with anything inside the
subtree at `p0`. -/
theorem incomp_append {p0 p' : List Nat} (s : List Nat)
    (h1 : pathPre p0 p' = false) (h2 : pathPre p' p0 = false) :
    pathPre (p0 ++ s) p' = false ∧ pathPre p' (p0 ++ s) = false := by
  constructor
  · cases hb : pathPre (p0 ++ s) p' with
    | false => rfl
    | true =>
      have : pathPre p0 p' = true := pathPre_trans (pathPre_append p0 s) hb
      rw [h1] at this
      exact absurd this (by simp)
  · cases hb : pathPre p' (p0 ++ s) with
    | false => rfl
    | true =>
      rcases pathPre_total p' p0 (p0 ++ s) hb (pathPre_append p0 s) with h | h
      · rw [h2] at h; exact absurd h (by simp)
      · rw [h1] at h; exact absurd h (by simp)

theorem bindRegions_nil (e : Elem) : bindRegions e [] = e := rfl

theorem bindRegions_cons (e : Elem) (pr : List Nat × Record)
    (l : List (List Nat × Record)) :
    bindRegions e (pr :: l) =
      bindRegions (updateAt e pr.1 fun t => fillTemplate t pr.2) l := rfl

theorem bindRegions_getAt_off (l : List (List Nat × Record)) :
    ∀ (e : Elem) (tq : List Nat),
    (∀ pr ∈ l, pathPre pr.1 tq = false ∧ pathPre tq pr.1 = false) →
    getAt (bindRegions e l) tq = getAt e tq := by
  induction l with
  | nil => intro e tq _; rfl
  | cons pr l ih =>
    intro e tq h
    rw [bindRegions_cons,
      ih _ tq fun pr' hpr' => h pr' (List.mem_cons_of_mem pr hpr')]
    have h0 := h pr (List.mem_cons_self pr l)
    exact getAt_updateAt_off tq pr.1 e _ h0.1 h0.2

/-- With pairwise incomparable (non-nested) region paths, the content an
emitted page shows inside one region is that region filled with its own
record, regardless of what the other regions were filled with. -/
theorem bindRegions_getAt_own (l : List (List Nat × Record)) :
    ∀ (e : Elem) (pr : List Nat × Record) (s : List Nat),
    l.Pairwise (fun a b => pathPre a.1 b.1 = false ∧ pathPre b.1 a.1 = false) →
    pr ∈ l →
    getAt (bindRegions e l) (pr.1 ++ s) =
      ((getAt e pr.1).map fun n => fillTemplate n pr.2).bind fun n => getAt n s := by
  induction l with
  | nil => intro e pr s _ hmem; simp at hmem
  | cons hd l ih =>
    intro e pr s hpw hmem
    have hpw' := List.pairwise_cons.mp hpw
    rcases List.mem_cons.mp hmem with rfl | hmem'
    · rw [bindRegions_cons,
        bindRegions_getAt_off l _ (pr.1 ++ s) fun pr' hpr' => by
          have h0 := hpw'.1 pr' hpr'
          exact And.comm.mp (incomp_append s h0.1 h0.2)]
      exact getAt_updateAt_append pr.1 s e _
    · rw [bindRegions_cons, ih _ pr s hpw'.2 hmem']
      have h0 := hpw'.1 pr hmem'
      rw [getAt_updateAt_off pr.1 hd.1 e _ h0.1 h0.2]

/-- Full characterisation of `replace` on a finite row list: the tree is
each region path updated with its record in order, the filled count is
`min` of regions and rows, `go_again` says the rows did not run out
early, and the unconsumed rows are the ones beyond the region count. -/
theorem replaceGo_eq (paths : List (List Nat)) :
    ∀ (root : Elem) (rows : List Record),
    replaceGo root paths rows =
      (bindRegions root (paths.zip rows),
       min paths.length rows.length,
       decide (paths.length ≤ rows.length),
       rows.drop paths.length) := by
  induction paths with
  | nil =>
    intro root rows
    simp [replaceGo, bindRegions_nil]
  | cons p ps ih =>
    intro root rows
    cases rows with
    | nil =>
      simp [replaceGo, bindRegions_nil]
    | cons r rs =>
      show (let out := replaceGo (updateAt root p fun t => fillTemplate t r) ps rs
            (out.1, out.2.1 + 1, out.2.2.1, out.2.2.2)) = _
      rw [ih]
      simp only [List.zip_cons_cons, List.length_cons, List.drop_succ_cons]
      rw [bindRegions_cons]
      refine congrArg (fun z => (_, z)) ?_
      refine congrArg₂ (fun z w => (z, w)) (by omega) ?_
      refine congrArg (fun z => (z, _)) ?_
      simp

/-! ## Infrastructure: chunks and the page generator -/

theorem zip_take_length (l1 : List (List Nat)) :
    ∀ (l2 : List Record), l1.zip (l2.take l1.length) = l1.zip l2 := by
  induction l1 with
  | nil => intro l2; rfl
  | cons a l1 ih =>
    intro l2
    cases l2 with
    | nil => rfl
    | cons b l2 =>
      rw [List.length_cons, List.take_succ_cons, List.zip_cons_cons,
        List.zip_cons_cons, ih]

theorem chunksOfFuel_irrel (m : Nat) (hm : 1 ≤ m) :
    ∀ (f f' : Nat) (l : List Record), l.length ≤ f → l.length ≤ f' →
    chunksOfFuel m f l = chunksOfFuel m f' l := by
  intro f
  induction f with
  | zero =>
    intro f' l h _
    have : l = [] := List.eq_nil_of_length_eq_zero (Nat.le_zero.mp h)
    subst this
    cases f' <;> rfl
  | succ f ih =>
    intro f' l h h'
    cases l with
    | nil => cases f' <;> rfl
    | cons r rs =>
      cases f' with
      | zero => simp at h'
      | succ f'' =>
        show (r :: rs).take m :: chunksOfFuel m f ((r :: rs).drop m)
            = (r :: rs).take m :: chunksOfFuel m f'' ((r :: rs).drop m)
        congr 1
        simp only [List.length_cons] at h h'
        apply ih f'' _ <;> (simp [List.length_drop]; omega)

theorem chunksOf_cons (m : Nat) (hm : 1 ≤ m) (r : Record) (rs : List Record) :
    chunksOf m (r :: rs) =
      (r :: rs).take m :: chunksOf m ((r :: rs).drop m) := by
  show (r :: rs).take m :: chunksOfFuel m rs.length ((r :: rs).drop m) = _
  congr 1
  rw [chunksOf]
  apply chunksOfFuel_irrel m hm <;> (simp [List.length_drop]; try omega)

theorem chunksOfFuel_flatten (m : Nat) (hm : 1 ≤ m) :
    ∀ (f : Nat) (l : List Record), l.length ≤ f →
    (chunksOfFuel m f l).flatten = l := by
  intro f
  induction f with
  | zero =>
    intro l h
    have : l = [] := List.eq_nil_of_length_eq_zero (Nat.le_zero.mp h)
    subst this
    rfl
  | succ f ih =>
    intro l h
    cases l with
    | nil => rfl
    | cons r rs =>
      show ((r :: rs).take m :: chunksOfFuel m f ((r :: rs).drop m)).flatten = r :: rs
      simp only [List.length_cons] at h
      rw [List.flatten_cons, ih _ (by simp [List.length_drop]; omega)]
      exact List.take_append_drop m (r :: rs)

theorem chunksOf_flatten (m : Nat) (hm : 1 ≤ m) (l : List Record) :
    (chunksOf m l).flatten = l :=
  chunksOfFuel_flatten m hm l.length l (Nat.le_refl _)

theorem chunksOfFuel_length (m : Nat) (hm : 1 ≤ m) :
    ∀ (f : Nat) (l : List Record), l.length ≤ f →
    (chunksOfFuel m f l).length = (l.length + m - 1) / m := by
  intro f
  induction f with
  | zero =>
    intro l h
    have : l = [] := List.eq_nil_of_length_eq_zero (Nat.le_zero.mp h)
    subst this
    simp [chunksOfFuel, Nat.div_eq_of_lt (show m - 1 < m by omega)]
  | succ f ih =>
    intro l h
    cases l with
    | nil =>
      simp [chunksOfFuel, Nat.div_eq_of_lt (show m - 1 < m by omega)]
    | cons r rs =>
      show ((r :: rs).take m :: chunksOfFuel m f ((r :: rs).drop m)).length = _
      simp only [List.length_cons] at h
      rw [List.length_cons, ih _ (by simp [List.length_drop]; omega)]
      simp only [List.length_drop, List.length_cons]
      rw [show rs.length + 1 + m - 1 = (rs.length + 1 - 1) + m by omega,
        Nat.add_div_right _ (by omega)]
      congr 1
      by_cases hk : m ≤ rs.length + 1
      · congr 1; omega
      · rw [Nat.div_eq_of_lt (by omega), Nat.div_eq_of_lt (by omega)]

theorem chunksOf_length (m : Nat) (hm : 1 ≤ m) (l : List Record) :
    (chunksOf m l).length = (l.length + m - 1) / m :=
  chunksOfFuel_length m hm l.length l (Nat.le_refl _)

theorem chunksOfFuel_mem_length (m : Nat) (hm : 1 ≤ m) :
    ∀ (f : Nat) (l : List Record) (c : List Record), l.length ≤ f →
    c ∈ chunksOfFuel m f l → 1 ≤ c.length ∧ c.length ≤ m := by
  intro f
  induction f with
  | zero =>
    intro l c h hc
    have : l = [] := List.eq_nil_of_length_eq_zero (Nat.le_zero.mp h)
    subst this
    simp [chunksOfFuel] at hc
  | succ f ih =>
    intro l c h hc
    cases l with
    | nil => simp [chunksOfFuel] at hc
    | cons r rs =>
      simp only [List.length_cons] at h
      rcases List.mem_cons.mp hc with rfl | hc'
      · constructor
        · simp [List.length_take]; omega
        · simp [List.length_take]
      · exact ih _ c (by simp [List.length_drop]; omega) hc'

/-- One unfolding of the page-generator loop body. -/
theorem genPagesFuel_succ (master : Elem) (fuel : Nat) (rows : List Record) :
    genPagesFuel master (fuel + 1) rows =
      (let out := replaceFill master rows
       let yielded := if out.2.1 > 0 then [out.1] else []
       if out.2.2.1 then
         match genPagesFuel master fuel out.2.2.2 with
         | none => none
         | some pages => some (yielded ++ pages)
       else
         some yielded) := rfl

/-- With no template region in the master the Python `while True` loop
never terminates: no fuel is ever enough.  `replace` finds nothing,
returns `(0, True)`, nothing is yielded, and the loop repeats. -/
theorem genPagesFuel_none (master : Elem) (hm : templatePaths master = []) :
    ∀ (fuel : Nat) (rows : List Record), genPagesFuel master fuel rows = none := by
  intro fuel
  induction fuel with
  | zero => intro rows; rfl
  | succ fuel ih =>
    intro rows
    rw [genPagesFuel_succ]
    show (let out := replaceGo master (templatePaths master) rows
          let yielded := if out.2.1 > 0 then [out.1] else []
          if out.2.2.1 then
            match genPagesFuel master fuel out.2.2.2 with
            | none => none
            | some pages => some (yielded ++ pages)
          else
            some yielded) = none
    rw [hm]
    simp only [replaceGo]
    simp [ih]

/-- The emitted page for one batch is `replace` run on the batch alone:
`zip` truncation makes the unconsumed rows irrelevant. -/
theorem fillPage_take (master : Elem) (rows : List Record) :
    fillPage master (rows.take (templatePaths master).length) =
      bindRegions master ((templatePaths master).zip rows) := by
  rw [fillPage, replaceFill, replaceGo_eq]
  show bindRegions master
    ((templatePaths master).zip (rows.take (templatePaths master).length)) = _
  rw [zip_take_length]

theorem fillPage_eq_bindRegions (master : Elem) (rows : List Record) :
    fillPage master rows = bindRegions master ((templatePaths master).zip rows) := by
  rw [fillPage, replaceFill, replaceGo_eq]

/-- When the master holds at least one template region, the generator
terminates within `rows.length + 1` passes and yields exactly the fills
of the successive row batches (chunks of the region count). -/
theorem genPagesFuel_eq (master : Elem) (hm : templatePaths master ≠ []) :
    ∀ (fuel : Nat) (rows : List Record), rows.length < fuel →
    genPagesFuel master fuel rows =
      some ((chunksOf (templatePaths master).length rows).map (fillPage master)) := by
  have hm1 : 1 ≤ (templatePaths master).length := List.length_pos.mpr hm
  intro fuel
  induction fuel with
  | zero => intro rows h; exact absurd h (Nat.not_lt_zero _)
  | succ fuel ih =>
    intro rows h
    rw [genPagesFuel_succ]
    show (let out := replaceGo master (templatePaths master) rows
          let yielded := if out.2.1 > 0 then [out.1] else []
          if out.2.2.1 then
            match genPagesFuel master fuel out.2.2.2 with
            | none => none
            | some pages => some (yielded ++ pages)
          else
            some yielded) = _
    rw [replaceGo_eq]
    dsimp only
    cases rows with
    | nil =>
      have hg : decide ((templatePaths master).length ≤ ([] : List Record).length)
          = false := by
        rw [decide_eq_false_iff_not]
        simp only [List.length_nil]
        omega
      simp [hg, chunksOf, chunksOfFuel]
      exact fun hcontra => absurd hcontra hm
    | cons r rs =>
      have hmin : 0 < min (templatePaths master).length (r :: rs).length := by
        simp [Nat.lt_min]
        omega
      by_cases hle : (templatePaths master).length ≤ (r :: rs).length
      · have hlen : ((r :: rs).drop (templatePaths master).length).length < fuel := by
          simp only [List.length_drop, List.length_cons]
          simp only [List.length_cons] at h
          omega
        rw [ih _ hlen]
        have hg := decide_eq_true hle
        simp only [hg, if_true, hmin, if_pos]
        rw [chunksOf_cons _ hm1, List.map_cons, fillPage_take]
        simp
      · have hg := decide_eq_false hle
        simp only [hg, Bool.false_eq_true, if_false, hmin, if_pos]
        have hdrop : (r :: rs).drop (templatePaths master).length = [] :=
          List.drop_eq_nil_of_le (by omega)
        rw [chunksOf_cons _ hm1, hdrop, List.map_cons,
          List.take_of_length_le (by omega), fillPage_eq_bindRegions]
        simp [chunksOf, chunksOfFuel]

/-- `generate_page_svg_trees` as run by `generate_pdf` (a finite page
list) exists exactly when the master has a template region, and is then
the batch fills. -/
theorem genPages_eq (master : Elem) (rows : List Record)
    (hm : templatePaths master ≠ []) :
    genPages master rows =
      some ((chunksOf (templatePaths master).length rows).map (fillPage master)) :=
  genPagesFuel_eq master hm (rows.length + 1) rows (Nat.lt_succ_self _)

/-! ## Infrastructure: path enumeration, subtree identity, zip -/

theorem list_set_getElem? {α : Type} (l : List α) : ∀ (i : Nat) (c : α),
    l[i]? = some c → l.set i c = l := by
  induction l with
  | nil => intro i c h; simp at h
  | cons a l ih =>
    intro i c h
    cases i with
    | zero => simp at h; simp [h]
    | succ n => simp at h; simp [ih n c h]

/-- If `f` fixes the subtree at `p`, the in-place update is invisible. -/
theorem updateAt_self (p : List Nat) : ∀ (e : Elem) (f : Elem → Elem),
    (∀ t, getAt e p = some t → f t = t) → updateAt e p f = e := by
  induction p with
  | nil =>
    intro e f h
    simp only [updateAt]
    exact h e rfl
  | cons i p ih =>
    intro e f h
    cases e with
    | mk t a x cs =>
      cases h' : cs[i]? with
      | none => simp [updateAt, h']
      | some c =>
        have hsub : updateAt c p f = c := by
          apply ih c f
          intro t' ht'
          apply h t'
          rw [getAt_cons]
          simp [Elem.children, h', ht']
        simp [updateAt, h', hsub, list_set_getElem? cs i c h']

theorem go_mem_single : ∀ (cs : List Elem) (j i : Nat) (c : Elem),
    cs[i]? = some c → [j + i] ∈ descendantPaths.go j cs := by
  intro cs
  induction cs with
  | nil => intro j i c h; simp at h
  | cons c0 rest ih =>
    intro j i c h
    cases i with
    | zero =>
      simp [descendantPaths.go]
    | succ n =>
      simp only [List.getElem?_cons_succ] at h
      have := ih (j + 1) n c h
      simp [descendantPaths.go]
      rw [show j + (n + 1) = j + 1 + n by omega]
      exact this

theorem go_mem_cons : ∀ (cs : List Elem) (j i : Nat) (c : Elem) (p : List Nat),
    cs[i]? = some c → p ∈ descendantPaths c →
    (j + i) :: p ∈ descendantPaths.go j cs := by
  intro cs
  induction cs with
  | nil => intro j i c p h _; simp at h
  | cons c0 rest ih =>
    intro j i c p h hp
    cases i with
    | zero =>
      simp only [List.getElem?_cons_zero] at h
      injection h with h
      subst h
      simp [descendantPaths.go]
      right
      left
      exact hp
    | succ n =>
      simp only [List.getElem?_cons_succ] at h
      have := ih (j + 1) n c p h hp
      simp [descendantPaths.go]
      rw [show j + (n + 1) = j + 1 + n by omega]
      exact this

theorem nil_not_mem_go : ∀ (cs : List Elem) (j : Nat),
    ([] : List Nat) ∉ descendantPaths.go j cs := by
  intro cs
  induction cs with
  | nil => intro j; simp [descendantPaths.go]
  | cons c0 rest ih =>
    intro j
    simp [descendantPaths.go]
    exact ih (j + 1)

theorem nil_not_mem_descendantPaths (e : Elem) :
    ([] : List Nat) ∉ descendantPaths e := by
  cases e with
  | mk t a x cs => exact nil_not_mem_go cs 0

/-- Completeness of the path enumeration: every address that resolves in
the tree is the root or one of the `findall` candidate paths. -/
theorem mem_descendantPaths_of_getAt (q : List Nat) : ∀ (e : Elem),
    (getAt e q).isSome → q = [] ∨ q ∈ descendantPaths e := by
  induction q with
  | nil => intro e _; left; rfl
  | cons i q' ih =>
    intro e h
    right
    cases e with
    | mk t a x cs =>
      rw [getAt_cons] at h
      simp only [Elem.children] at h
      cases h' : cs[i]? with
      | none => rw [h'] at h; simp at h
      | some c =>
        rw [h'] at h
        simp only [Option.some_bind] at h
        rcases ih c h with rfl | hmem
        · have := go_mem_single cs 0 i c h'
          rw [Nat.zero_add] at this
          exact this
        · have := go_mem_cons cs 0 i c q' h' hmem
          rw [Nat.zero_add] at this
          exact this

theorem classAt_of_slotClassAt {t : Elem} {q : List Nat} {k : String}
    (h : slotClassAt t q k = true) : classAt t q = some k := by
  rw [slotClassAt] at h
  cases hq : getAt t q with
  | none => rw [hq] at h; simp [Option.any] at h
  | some n =>
    rw [hq] at h
    simp only [Option.any, Bool.and_eq_true, beq_iff_eq] at h
    rw [classAt, hq]
    exact h.2

theorem tagAt_of_slotClassAt {t : Elem} {q : List Nat} {k : String}
    (h : slotClassAt t q k = true) :
    tagAt t q = some (svgName "tspan") ∨ tagAt t q = some (svgName "flowPara") := by
  rw [slotClassAt] at h
  cases hq : getAt t q with
  | none => rw [hq] at h; simp [Option.any] at h
  | some n =>
    rw [hq] at h
    simp only [Option.any, Bool.and_eq_true, Bool.or_eq_true_iff, beq_iff_eq] at h
    rw [tagAt, hq]
    rcases h.1 with h1 | h1
    · left
      show some n.tag = some (svgName "tspan")
      rw [h1]
    · right
      show some n.tag = some (svgName "flowPara")
      rw [h1]

theorem slotClassAt_false_of_classAt {t : Elem} {q : List Nat} {k : String}
    (h : classAt t q ≠ some k) : slotClassAt t q k = false := by
  cases hb : slotClassAt t q k with
  | false => rfl
  | true => exact absurd (classAt_of_slotClassAt hb) h

theorem zip_getElem? (l1 : List (List Nat)) :
    ∀ (l2 : List Record) (i : Nat) (a : List Nat) (b : Record),
    l1[i]? = some a → l2[i]? = some b → (l1.zip l2)[i]? = some (a, b) := by
  induction l1 with
  | nil => intro l2 i a b h _; simp at h
  | cons x l1 ih =>
    intro l2 i a b h1 h2
    cases l2 with
    | nil => simp at h2
    | cons y l2 =>
      cases i with
      | zero =>
        simp at h1 h2
        simp [h1, h2]
      | succ n =>
        simp only [List.getElem?_cons_succ] at h1 h2
        rw [List.zip_cons_cons]
        simp only [List.getElem?_cons_succ]
        exact ih l2 n a b h1 h2

theorem pairwise_zip (R : List Nat → List Nat → Prop) (l1 : List (List Nat)) :
    ∀ (l2 : List Record), l1.Pairwise R →
    (l1.zip l2).Pairwise (fun a b => R a.1 b.1) := by
  induction l1 with
  | nil => intro l2 _; simp
  | cons x l1 ih =>
    intro l2 h
    cases l2 with
    | nil => simp
    | cons y l2 =>
      rw [List.zip_cons_cons, List.pairwise_cons]
      have h' := List.pairwise_cons.mp h
      exact ⟨fun pr hpr => h'.1 pr.1 (List.of_mem_zip hpr).1, ih l2 h'.2⟩

/-! ## Infrastructure: the erroring row stream (`KeyError` mid-run) -/

theorem replaceErrGo_eq (paths : List (List Nat)) :
    ∀ (root : Elem) (recs : List Record),
    replaceErrGo root paths recs =
      if paths.length ≤ recs.length then
        some (bindRegions root (paths.zip recs), paths.length,
          recs.drop paths.length)
      else none := by
  induction paths with
  | nil =>
    intro root recs
    simp [replaceErrGo, bindRegions_nil]
  | cons p ps ih =>
    intro root recs
    cases recs with
    | nil =>
      simp [replaceErrGo]
    | cons r rs =>
      show (replaceErrGo (updateAt root p fun t => fillTemplate t r) ps rs).map _ = _
      rw [ih]
      by_cases hle : ps.length ≤ rs.length
      · simp only [hle, if_pos, Option.map_some]
        have : (p :: ps).length ≤ (r :: rs).length := by
          simp only [List.length_cons]; omega
        simp only [this, if_pos]
        rw [List.zip_cons_cons, bindRegions_cons]
        simp
      · simp only [hle, if_neg, Option.map_none]
        simp [hle]

/-- Under the erroring stream with at least one region, the loop renders
exactly the pages of the *complete* batches and then lets the exception
escape. -/
theorem pageLoopErrFuel_eq (master : Elem) (hm : templatePaths master ≠ []) :
    ∀ (fuel : Nat) (recs : List Record), recs.length < fuel →
    pageLoopErrFuel master fuel recs =
      some (((chunksOf (templatePaths master).length recs).filter
        (fun c => c.length == (templatePaths master).length)).map
          (fillPage master)) := by
  have hm1 : 1 ≤ (templatePaths master).length := List.length_pos.mpr hm
  intro fuel
  induction fuel with
  | zero => intro recs h; exact absurd h (Nat.not_lt_zero _)
  | succ fuel ih =>
    intro recs h
    show (match replaceErrGo master (templatePaths master) recs with
          | none => some []
          | some out =>
            let yielded := if out.2.1 > 0 then [out.1] else []
            match pageLoopErrFuel master fuel out.2.2 with
            | none => none
            | some pages => some (yielded ++ pages)) = _
    rw [replaceErrGo_eq]
    by_cases hle : (templatePaths master).length ≤ recs.length
    · simp only [hle, if_pos]
      have hlen : (recs.drop (templatePaths master).length).length < fuel := by
        simp only [List.length_drop]
        omega
      rw [ih _ hlen]
      cases recs with
      | nil =>
        exfalso
        simp only [List.length_nil, Nat.le_zero] at hle
        omega
      | cons r rs =>
        have hpos : 0 < (templatePaths master).length := hm1
        simp only [hpos, if_pos]
        rw [chunksOf_cons _ hm1]
        have htk : ((r :: rs).take (templatePaths master).length).length
            = (templatePaths master).length := by
          simp only [List.length_take, List.length_cons]
          simp only [List.length_cons] at hle
          omega
        rw [List.filter_cons]
        simp only [htk, beq_self_eq_true, if_pos]
        rw [List.map_cons, fillPage_take]
        simp
    · simp only [hle, if_neg]
      cases recs with
      | nil => simp [chunksOf, chunksOfFuel]
      | cons r rs =>
        simp only [List.length_cons, Nat.not_le] at hle
        rw [chunksOf_cons _ hm1]
        rw [List.filter_cons]
        have htk : (((r :: rs).take (templatePaths master).length).length
            == (templatePaths master).length) = false := by
          simp [List.length_take]
          omega
        rw [htk]
        simp only [Bool.false_eq_true, if_false]
        have hdrop2 : (r :: rs).drop (templatePaths master).length = [] :=
          List.drop_eq_nil_of_le (by simp only [List.length_cons]; omega)
        rw [hdrop2]
        simp [chunksOf, chunksOfFuel]

/-! ## The claims -/

/-- C1: with at least one template region, the page generator binds every
row exactly once and in order: the yielded pages are exactly the fills of
the successive row batches (regions in document order inside a page,
batches in row order across pages), the batches concatenate back to the
original row list (no loss, no duplication), and the per-page filled
counts sum to the total row count. -/
theorem claim1_rows_bound_once (master : Elem) (rows : List Record)
    (hm : templatePaths master ≠ []) :
    genPages master rows =
      some ((chunksOf (templatePaths master).length rows).map (fillPage master))
    ∧ (chunksOf (templatePaths master).length rows).flatten = rows
    ∧ ((chunksOf (templatePaths master).length rows).map
        (fun c => (replaceFill master c).2.1)).sum = rows.length := by
  have hm1 : 1 ≤ (templatePaths master).length := List.length_pos.mpr hm
  refine ⟨genPages_eq master rows hm, chunksOf_flatten _ hm1 rows, ?_⟩
  have hc : ∀ c ∈ chunksOf (templatePaths master).length rows,
      (replaceFill master c).2.1 = c.length := by
    intro c hcmem
    have hlen := chunksOfFuel_mem_length _ hm1 rows.length rows c (Nat.le_refl _) hcmem
    rw [replaceFill, replaceGo_eq]
    show min (templatePaths master).length c.length = c.length
    omega
  rw [List.map_congr_left hc]
  rw [show (chunksOf (templatePaths master).length rows).map (fun c => c.length)
      = (chunksOf (templatePaths master).length rows).map List.length from rfl]
  rw [← List.length_flatten, chunksOf_flatten _ hm1]

/-- Witness for C1 at the spec scenario: two regions per page, three
rows. -/
theorem claim1_witness :
    templatePaths exMaster2 ≠ []
    ∧ (genPages exMaster2 [exRec1, exRec2, exRec3] =
        some ((chunksOf (templatePaths exMaster2).length [exRec1, exRec2, exRec3]).map
          (fillPage exMaster2))
      ∧ (chunksOf (templatePaths exMaster2).length [exRec1, exRec2, exRec3]).flatten
          = [exRec1, exRec2, exRec3]
      ∧ ((chunksOf (templatePaths exMaster2).length [exRec1, exRec2, exRec3]).map
          (fun c => (replaceFill exMaster2 c).2.1)).sum
          = ([exRec1, exRec2, exRec3] : List Record).length) :=
  ⟨by decide, claim1_rows_bound_once exMaster2 [exRec1, exRec2, exRec3] (by decide)⟩

/-- C2: with `m ≥ 1` regions and `k` rows the generator yields exactly
`⌈k/m⌉ = (k + m - 1) / m` pages; in particular `0` pages for `k = 0`. -/
theorem claim2_page_count (master : Elem) (rows : List Record)
    (hm : templatePaths master ≠ []) :
    (genPages master rows).map List.length =
      some ((rows.length + (templatePaths master).length - 1)
        / (templatePaths master).length)
    ∧ genPages master [] = some [] := by
  have hm1 : 1 ≤ (templatePaths master).length := List.length_pos.mpr hm
  constructor
  · rw [genPages_eq master rows hm]
    show some ((chunksOf (templatePaths master).length rows).map
      (fillPage master)).length = _
    rw [List.length_map, chunksOf_length _ hm1]
  · rw [genPages_eq master [] hm]
    rfl

/-- Witness for C2: two regions, three rows, `⌈3/2⌉ = 2` pages. -/
theorem claim2_witness :
    templatePaths exMaster2 ≠ []
    ∧ ((genPages exMaster2 [exRec1, exRec2, exRec3]).map List.length =
        some ((([exRec1, exRec2, exRec3] : List Record).length
          + (templatePaths exMaster2).length - 1) / (templatePaths exMaster2).length)
      ∧ genPages exMaster2 [] = some []) :=
  ⟨by decide, claim2_page_count exMaster2 [exRec1, exRec2, exRec3] (by decide)⟩

/-- C3 (the claim is the intent; the code hangs): with zero template
regions, `replace` finds nothing and reports `(0, go_again = True)`, so
`generate_page_svg_trees` loops forever without yielding and without
raising — no iteration bound ever completes the loop, while the claim
requires a surfaced configuration error. -/
theorem claim3_zero_regions_never_terminates (master : Elem)
    (rows : List Record) (fuel : Nat) (hm : templatePaths master = []) :
    genPagesFuel master fuel rows = none :=
  genPagesFuel_none master hm fuel rows

/-- Witness for C3: a concrete template with no region marker; even with
ample fuel the loop does not finish. -/
theorem claim3_witness :
    templatePaths exNoRegion = []
    ∧ genPagesFuel exNoRegion 100 [exRec1] = none :=
  ⟨by decide, claim3_zero_regions_never_terminates exNoRegion [exRec1] 100 (by decide)⟩

/-- C4: filling one region is frame-preserving — a record field matching
no slot in the region changes nothing (and raises nothing, the model
being total), and any node whose `class` matches no field of the record
keeps its text exactly. -/
theorem claim4_unmatched_preserved (t : Elem) (row : Record) :
    (∀ k v, (∀ q ∈ descendantPaths t, slotClassAt t q k = false) →
      fillField t k v = t)
    ∧ ∀ q : List Nat, (∀ kv ∈ row, classAt t q ≠ some kv.1) →
      textAt (fillTemplate t row) q = textAt t q := by
  refine ⟨fillField_id t, ?_⟩
  intro q h
  apply textAt_fillTemplate_frame
  intro kv hkv
  exact slotClassAt_false_of_classAt (h kv hkv)

/-- Witness for C4: a field with no slot is inert, and the unrelated
`extra` slot keeps its placeholder. -/
theorem claim4_witness :
    fillField exRegionW "phone" "555" = exRegionW
    ∧ textAt (fillTemplate exRegionW exRec1) [1] = textAt exRegionW [1] :=
  ⟨(claim4_unmatched_preserved exRegionW exRec1).1 "phone" "555" (by decide),
   (claim4_unmatched_preserved exRegionW exRec1).2 [1] (by decide)⟩

/-- C9: only `svg:tspan` / `svg:flowPara` descendants whose `class` is a
field name are written: any text change implies the node was such a slot
with a matching label, and tags and attributes are never modified. -/
theorem claim9_only_slot_elements (t : Elem) (row : Record) (q : List Nat) :
    (textAt (fillTemplate t row) q ≠ textAt t q →
      (tagAt t q = some (svgName "tspan") ∨ tagAt t q = some (svgName "flowPara"))
      ∧ ∃ kv ∈ row, classAt t q = some kv.1)
    ∧ tagAt (fillTemplate t row) q = tagAt t q
    ∧ classAt (fillTemplate t row) q = classAt t q := by
  refine ⟨?_, tagAt_fillTemplate row t q, classAt_fillTemplate row t q⟩
  intro hch
  have hex : ¬∀ kv ∈ row, slotClassAt t q kv.1 = false :=
    fun hall => hch (textAt_fillTemplate_frame row t q hall)
  push_neg at hex
  obtain ⟨kv, hkv, hne⟩ := hex
  have htrue : slotClassAt t q kv.1 = true := by
    cases hb : slotClassAt t q kv.1 with
    | false => exact absurd hb hne
    | true => rfl
  exact ⟨tagAt_of_slotClassAt htrue, kv, hkv, classAt_of_slotClassAt htrue⟩

/-- Witness for C9: the `name` slot of a region does change, and indeed
it is a `tspan` labelled by a field of the record. -/
theorem claim9_witness :
    (tagAt exRegionNS [0] = some (svgName "tspan")
      ∨ tagAt exRegionNS [0] = some (svgName "flowPara"))
    ∧ ∃ kv ∈ exRec1, classAt exRegionNS [0] = some kv.1 :=
  (claim9_only_slot_elements exRegionNS exRec1 [0]).1 (by decide)

/-- C10: the filled count grows as soon as a record is pulled for a
region (`count += 1` precedes the slot loop), independently of any text
change: a record none of whose fields matches any slot still produces a
yielded page, and that page is byte-identical to the master. -/
theorem claim10_blank_page_counts (master : Elem) (row : Record)
    (hm : templatePaths master ≠ [])
    (hnone : ∀ kv ∈ row, ∀ q ∈ descendantPaths master,
      slotClassAt master q kv.1 = false) :
    (replaceFill master [row]).2.1 = 1
    ∧ genPages master [row] = some [master] := by
  have hm1 : 1 ≤ (templatePaths master).length := List.length_pos.mpr hm
  have hpage : fillPage master [row] = master := by
    rw [fillPage_eq_bindRegions]
    cases hp : templatePaths master with
    | nil => exact absurd hp hm
    | cons p0 ps =>
      rw [List.zip_cons_cons,
        show ps.zip ([] : List Record) = [] from List.zip_nil_right,
        bindRegions_cons, bindRegions_nil]
      apply updateAt_self
      intro t ht
      apply fillTemplate_id
      intro kv hkv q hq
      have hgeq : getAt t q = getAt master (p0 ++ q) := by
        rw [getAt_append, ht]
        rfl
      have hs : slotClassAt t q kv.1 = slotClassAt master (p0 ++ q) kv.1 := by
        rw [slotClassAt, slotClassAt, hgeq]
      rw [hs]
      cases hget : getAt master (p0 ++ q) with
      | none => rw [slotClassAt, hget]; rfl
      | some n =>
        have hvalid : (getAt master (p0 ++ q)).isSome := by rw [hget]; rfl
        rcases mem_descendantPaths_of_getAt (p0 ++ q) master hvalid with hnil | hmem
        · exact absurd ((List.append_eq_nil.mp hnil).2 ▸ hq)
            (nil_not_mem_descendantPaths t)
        · exact hnone kv hkv (p0 ++ q) hmem
  constructor
  · rw [replaceFill, replaceGo_eq]
    show min (templatePaths master).length 1 = 1
    omega
  · rw [genPages_eq master [row] hm]
    have hch : chunksOf (templatePaths master).length [row] = [[row]] := by
      rw [chunksOf_cons _ hm1,
        List.take_of_length_le (by simp [hm1]),
        List.drop_eq_nil_of_le (by simp [hm1])]
      rfl
    rw [hch, List.map_cons]
    rw [show (([] : List (List Record)).map (fillPage master)) = [] from rfl]
    rw [hpage]

/-- Witness for C10: a record whose only field `phone` labels no slot of
the single-region master still yields one (unchanged) page. -/
theorem claim10_witness :
    (replaceFill exMaster1 [exRecNoSlot]).2.1 = 1
    ∧ genPages exMaster1 [exRecNoSlot] = some [exMaster1] :=
  claim10_blank_page_counts exMaster1 exRecNoSlot (by decide) (by decide)

/-- C5 counterexample: the claim fails when one region is nested inside
another.  In `exNested` region B (`[0,0]`) sits inside region A (`[0]`);
feeding records `{x: a}` then `{y: b}`, the slot labelled `x` *inside B*
ends up holding region A's value `a` (its placeholder was `PLACEHOLDER`),
so binding fields into A did change text inside B. -/
theorem claim5_counterexample :
    templatePaths exNested = [[0], [0, 0]]
    ∧ textAt (fillPage exNested [[("x", "a")], [("y", "b")]]) [0, 0, 0] = some "a"
    ∧ textAt exNested [0, 0, 0] = some "PLACEHOLDER" :=
  ⟨by decide, rfl, rfl⟩

/-- C5 amended: for *non-nested* regions (no region path a prefix of
another, the normal layout of repeated regions on a page), the content of
each region in the emitted page is that region filled with its own record
alone — bindings for region A never leak into region B. -/
theorem claim5_no_cross_contamination (master : Elem) (rows : List Record)
    (hpw : (templatePaths master).Pairwise
      (fun a b => pathPre a b = false ∧ pathPre b a = false))
    (i : Nat) (pB : List Nat) (rB : Record) (nB : Elem) (s : List Nat)
    (hp : (templatePaths master)[i]? = some pB)
    (hr : rows[i]? = some rB)
    (hn : getAt master pB = some nB) :
    getAt (fillPage master rows) (pB ++ s) = getAt (fillTemplate nB rB) s := by
  rw [fillPage_eq_bindRegions]
  have hzip := zip_getElem? (templatePaths master) rows i pB rB hp hr
  have hmem : (pB, rB) ∈ (templatePaths master).zip rows := List.getElem?_mem hzip
  have hpwz := pairwise_zip _ (templatePaths master) rows hpw
  rw [bindRegions_getAt_own _ master (pB, rB) s hpwz hmem, hn]
  rfl

/-- Witness for C5 amended: in the two-region master, the second region
shows exactly its own record's fill. -/
theorem claim5_witness :
    getAt (fillPage exMaster2 [exRec1, exRec2]) ([1] ++ [0]) =
      getAt (fillTemplate exRegionNS exRec2) [0] :=
  claim5_no_cross_contamination exMaster2 [exRec1, exRec2] (by decide)
    1 [1] exRec2 exRegionNS [0] (by decide) (by decide) rfl

/-- C6 counterexample: with a one-region template and rows
`[good, bad-starter]`, the run renders the good row's page (the external
rasterizer is invoked) *before* the `KeyError` aborts — the abort is not
before any page is rendered. -/
theorem claim6_counterexample :
    runTrace exMaster1 [exRawGood, exRawBad] =
      some [Ev.rendered (fillPage exMaster1 [exRecGood]),
        Ev.errored "KeyError: Garlic bread"] := rfl

/-- C6 amended: an unmapped categorical value makes the whole run abort
with the `KeyError` — the offending row is never bound into a page and
the output document is never written — but pages for earlier complete
batches have already been rendered by then. -/
theorem claim6_unknown_value_aborts (master : Elem) (raws : List RawRow)
    (e : String) (hm : templatePaths master ≠ [])
    (he : (filterWeddingRsvp raws).2.2 = some e) :
    runTrace master raws =
      some ((((chunksOf (templatePaths master).length
          (filterWeddingRsvp raws).1).filter
        (fun c => c.length == (templatePaths master).length)).map
          (fillPage master)).map Ev.rendered ++ [Ev.errored e])
    ∧ ∀ tr, runTrace master raws = some tr → Ev.wroteOutput ∉ tr := by
  have h1 : runTrace master raws =
      some ((((chunksOf (templatePaths master).length
          (filterWeddingRsvp raws).1).filter
        (fun c => c.length == (templatePaths master).length)).map
          (fillPage master)).map Ev.rendered ++ [Ev.errored e]) := by
    simp only [runTrace, he]
    rw [pageLoopErrFuel_eq master hm _ _ (Nat.lt_succ_self _)]
    rfl
  refine ⟨h1, ?_⟩
  intro tr htr
  rw [h1] at htr
  injection htr with htr
  subst htr
  simp [List.mem_append, List.mem_map]

/-- Witness for C6 amended: the concrete two-row run aborts with the
`KeyError` and never writes the output. -/
theorem claim6_witness :
    runTrace exMaster1 [exRawGood, exRawBad] =
      some ((((chunksOf (templatePaths exMaster1).length
          (filterWeddingRsvp [exRawGood, exRawBad]).1).filter
        (fun c => c.length == (templatePaths exMaster1).length)).map
          (fillPage exMaster1)).map Ev.rendered
        ++ [Ev.errored "KeyError: Garlic bread"])
    ∧ ∀ tr, runTrace exMaster1 [exRawGood, exRawBad] = some tr →
        Ev.wroteOutput ∉ tr :=
  claim6_unknown_value_aborts exMaster1 [exRawGood, exRawBad]
    "KeyError: Garlic bread" (by decide) rfl

/-- C7: a row failing the required-field check (empty `Starter`) is
skipped: the record stream is exactly as if the row were absent (so it
consumes no template region downstream), and — provided the rows before
it do not abort the run first — the printed diagnostics name the skipped
guest. -/
theorem claim7_skip_diagnostic (xs ys : List RawRow) (r : RawRow) (n1 : String)
    (h1 : dictGet r "Starter" = some "")
    (h2 : dictGet r "Name of Guest 1" = some n1) :
    (filterWeddingRsvp (xs ++ r :: ys)).1 = (filterWeddingRsvp (xs ++ ys)).1
    ∧ ((filterWeddingRsvp xs).2.2 = none →
      ("Skipping guest " ++ n1) ∈ (filterWeddingRsvp (xs ++ r :: ys)).2.1) := by
  have hr : adaptRow r = .skip ("Skipping guest " ++ n1) := by
    simp [adaptRow, h1, h2]
  induction xs with
  | nil =>
    constructor
    · show (filterWeddingRsvp (r :: ys)).1 = _
      simp [filterWeddingRsvp, hr]
    · intro _
      show _ ∈ (filterWeddingRsvp (r :: ys)).2.1
      simp [filterWeddingRsvp, hr]
  | cons x xs ih =>
    constructor
    · show (filterWeddingRsvp (x :: (xs ++ r :: ys))).1
        = (filterWeddingRsvp (x :: (xs ++ ys))).1
      cases hx : adaptRow x with
      | err m => simp [filterWeddingRsvp, hx]
      | skip d =>
        simp only [filterWeddingRsvp, hx]
        exact ih.1
      | yield d rec' =>
        simp only [filterWeddingRsvp, hx]
        rw [ih.1]
    · intro hnone
      show _ ∈ (filterWeddingRsvp (x :: (xs ++ r :: ys))).2.1
      cases hx : adaptRow x with
      | err m =>
        exfalso
        simp [filterWeddingRsvp, hx] at hnone
      | skip d =>
        have hnone' : (filterWeddingRsvp xs).2.2 = none := by
          simpa [filterWeddingRsvp, hx] using hnone
        simp only [filterWeddingRsvp, hx]
        exact List.mem_cons_of_mem d (ih.2 hnone')
      | yield d rec' =>
        have hnone' : (filterWeddingRsvp xs).2.2 = none := by
          simpa [filterWeddingRsvp, hx] using hnone
        simp only [filterWeddingRsvp, hx]
        exact List.mem_cons_of_mem d (ih.2 hnone')

/-- Witness for C7: the empty-`Starter` row is dropped from the record
stream and its diagnostic names the guest. -/
theorem claim7_witness :
    (filterWeddingRsvp ([exRawGood] ++ exRawSkip :: [])).1 =
      (filterWeddingRsvp ([exRawGood] ++ [])).1
    ∧ ("Skipping guest " ++ "Carol and guest") ∈
        (filterWeddingRsvp ([exRawGood] ++ exRawSkip :: [])).2.1 :=
  ⟨(claim7_skip_diagnostic [exRawGood] [] exRawSkip "Carol and guest" rfl rfl).1,
   (claim7_skip_diagnostic [exRawGood] [] exRawSkip "Carol and guest" rfl rfl).2
     rfl⟩

/-- C8 counterexample: output exists, `--force` absent, stdin a terminal
— the program does not prompt (the `input()` call is commented out,
\"BH - For now, always overwrite\"): it silently proceeds with overwrite
enabled. -/
theorem claim8_counterexample :
    mainDecision false true true "out.pdf" = MainOutcome.run true
    ∧ ∀ p, mainDecision false true true "out.pdf" ≠ MainOutcome.promptUser p :=
  ⟨rfl, fun _ h => MainOutcome.noConfusion h⟩

/-- C8 amended: with the output existing and `--force` absent, a terminal
on stdin silently enables overwrite (no prompt), while a non-interactive
run aborts with exit code 1 and the `--force` hint, never reaching
`process_csv` (the existing file stays untouched). -/
theorem claim8_no_prompt (force fileExists isatty : Bool) (path : String)
    (hf : force = false) (he : fileExists = true) :
    (isatty = true → mainDecision force fileExists isatty path =
      MainOutcome.run true)
    ∧ (isatty = false → mainDecision force fileExists isatty path =
      MainOutcome.abort 1 ("Error: file " ++ path
        ++ " already exists. Use --force to overwrite.\nAborted")) := by
  subst hf
  subst he
  constructor
  · intro h
    subst h
    rfl
  · intro h
    subst h
    rfl

/-- Witness for C8 amended: both branches at a concrete path. -/
theorem claim8_witness :
    mainDecision false true true "out.pdf" = MainOutcome.run true
    ∧ mainDecision false true false "out.pdf" =
      MainOutcome.abort 1 ("Error: file " ++ "out.pdf"
        ++ " already exists. Use --force to overwrite.\nAborted") :=
  ⟨(claim8_no_prompt false true true "out.pdf" rfl rfl).1 rfl,
   (claim8_no_prompt false true false "out.pdf" rfl rfl).2 rfl⟩

end SvgMerge
